import Mathlib

/-!
# Verification of the anthropic-proxy conversation-memory subsystem

Shallow embedding of the memory-tiering core of `src/unnamed/part_004`
(Fastify + Upstash Redis + Anthropic Messages API proxy): the short-term
buffer (STB), the long-term memory archive (LTM), the summary compactor,
the recall engine, and the token-budget context assembler.

Modelling conventions:
* JavaScript strings are modelled as Lean `String`; indices are code
  points rather than UTF-16 code units (they agree on all inputs used
  here, which are ASCII).
* JavaScript `\s` and `trim()` accept a handful of Unicode spaces beyond
  ASCII whitespace; we model the ASCII whitespace set, which agrees with
  JavaScript on every input considered here.
* IEEE-754 arithmetic (cosine similarity, keyword score, ECMAScript
  number formatting) is abstracted into function parameters: none of the
  verified properties depend on the numeric values produced.
* The Upstash Redis store is modelled as a total map from keys to typed
  values (`RVal`); list items are stored JSON documents, with `none`
  standing for an unparseable item.  TTL refreshes (`expire`) are not
  modelled: no claim mentions expiry.
* The store client itself is an external collaborator (its library is
  not part of this repository); its commands are modelled by the
  abstract list/string interface of the specification's §6 — `rpush`
  appends one stored document per element of the batch it is given,
  `lrange`/`ltrim` use Redis index-window semantics, and `type`/`del`/
  `llen`/`get`/`set` are the usual key operations.
-/

/-! ## JavaScript string primitives -/

/-- ASCII whitespace, the fragment of JavaScript `\s` / `trim()` relevant
here (space, tab, LF, CR, VT, FF). -/
def jsIsWS (c : Char) : Bool :=
  c = ' ' || c = '\t' || c = '\n' || c = '\r' || c = '\x0b' || c = '\x0c'

/-- JavaScript `\w`: `[A-Za-z0-9_]`. -/
def jsIsWordChar (c : Char) : Bool :=
  ('a' ≤ c && c ≤ 'z') || ('A' ≤ c && c ≤ 'Z') || ('0' ≤ c && c ≤ '9') || c = '_'

/-- ASCII letter (JavaScript `[a-z]` under the `i` flag). -/
def jsIsAlpha (c : Char) : Bool :=
  ('a' ≤ c && c ≤ 'z') || ('A' ≤ c && c ≤ 'Z')

/-- ASCII lower-casing, enough for the case-insensitive regex tests. -/
def jsLower (c : Char) : Char :=
  if 'A' ≤ c && c ≤ 'Z' then Char.ofNat (c.toNat + 32) else c

/-- JavaScript `String.prototype.trim()` (ASCII fragment). -/
def jsTrim (s : String) : String :=
  String.mk (((s.data.dropWhile jsIsWS).reverse.dropWhile jsIsWS).reverse)

/-- JavaScript `s.slice(0, n)` for `n ≥ 0`. -/
def jsSlice0 (n : Nat) (s : String) : String :=
  String.mk (s.data.take n)

/-! ## The fact-extraction regular expressions of `updateSummaryHeuristic`

`/(^i\s(am|work|live|prefer|use)\b)|(\bmy\s[a-z]+)/i` and
`/\b(is|=|:)\b/`, implemented directly over character lists.  A word
boundary `\b` separates a `\w` character from a non-`\w` character (or
the string edge). -/

/-- All positions of a character list, each paired with the character
just before it (`none` at the start): the scan list for unanchored
regex alternatives. -/
def posWithPrev : Option Char → List Char → List (Option Char × List Char)
  | prev, [] => [(prev, [])]
  | prev, c :: rest => (prev, c :: rest) :: posWithPrev (some c) rest

/-- `\b` before a `\w` character: previous character absent or non-word. -/
def boundaryBeforeWord : Option Char → Bool
  | none => true
  | some c => !jsIsWordChar c

/-- `\b` after a `\w` character: next character absent or non-word. -/
def boundaryAfterWord : Option Char → Bool
  | none => true
  | some c => !jsIsWordChar c

/-- Case-insensitive match of a verb from the first alternative, followed
by a word boundary. -/
def verbWithBoundary (verb : List Char) (l : List Char) : Bool :=
  ((l.take verb.length).map jsLower == verb) && boundaryAfterWord (l.drop verb.length).head?

/-- `\bmy\s[a-z]+` (with the `i` flag) anchored at one position. -/
def matchMyAt : Option Char × List Char → Bool
  | (prev, m :: y :: w :: a :: _) =>
      boundaryBeforeWord prev && jsLower m = 'm' && jsLower y = 'y' && jsIsWS w && jsIsAlpha a
  | _ => false

/-- Test of `/(^i\s(am|work|live|prefer|use)\b)|(\bmy\s[a-z]+)/i`. -/
def testSelfRefRegex (s : String) : Bool :=
  (match s.data with
   | i :: w :: rest =>
       jsLower i = 'i' && jsIsWS w &&
         (verbWithBoundary ['a', 'm'] rest ||
          verbWithBoundary ['w', 'o', 'r', 'k'] rest ||
          verbWithBoundary ['l', 'i', 'v', 'e'] rest ||
          verbWithBoundary ['p', 'r', 'e', 'f', 'e', 'r'] rest ||
          verbWithBoundary ['u', 's', 'e'] rest)
   | _ => false)
  || (posWithPrev none s.data).any matchMyAt

/-- `\b(is|=|:)\b` anchored at one position.  Around the non-word
characters `=` and `:` the boundaries require a word character on each
side. -/
def matchIsEqColonAt : Option Char × List Char → Bool
  | (prev, 'i' :: 's' :: rest) =>
      boundaryBeforeWord prev && boundaryAfterWord rest.head?
  | (prev, '=' :: rest) =>
      (match prev with | some c => jsIsWordChar c | none => false) &&
      (match rest.head? with | some c => jsIsWordChar c | none => false)
  | (prev, ':' :: rest) =>
      (match prev with | some c => jsIsWordChar c | none => false) &&
      (match rest.head? with | some c => jsIsWordChar c | none => false)
  | _ => false

/-- Test of `/\b(is|=|:)\b/` (case-sensitive: no `i` flag). -/
def testKVRegex (s : String) : Bool :=
  (posWithPrev none s.data).any matchIsEqColonAt

/-! ## Summary compactor (`updateSummaryHeuristic`) -/

/-- `t.split(/\n+/)` over a character list: split on maximal runs of
newlines (a leading newline yields a leading empty fragment, a trailing
one a trailing empty fragment, exactly as in JavaScript).  The fuel is
the length of the list, which always suffices. -/
def splitNLAux : Nat → List Char → List Char → List (List Char)
  | _, [], acc => [acc.reverse]
  | 0, _ :: _, acc => [acc.reverse]
  | fuel + 1, c :: rest, acc =>
      if c = '\n' then acc.reverse :: splitNLAux fuel (rest.dropWhile (· = '\n')) []
      else splitNLAux fuel rest (c :: acc)

/-- `t.split(/\n+/)`. -/
def splitNLRuns (s : String) : List String :=
  (splitNLAux s.data.length s.data []).map String.mk

/-- One conversation turn as constructed by the `/chat` handler:
`{ role, content, ts, locale }`. -/
structure ConversationEntry where
  role : String
  content : String
  ts : Int
  locale : String
deriving DecidableEq, Repr

/-- The `add` closure of `updateSummaryHeuristic`: trim the line, keep it
as a `- `-prefixed fact when nonempty and at most 220 characters. -/
def jsAddFact (line : String) : Option String :=
  let t := jsTrim line
  if t ≠ "" && t.length ≤ 220 then some ("- " ++ t) else none

/-- Fact extraction of `updateSummaryHeuristic`: for each user entry,
the first three newline-separated fragments of its content, kept when one
of the two regexes matches. -/
def factsOf (entries : List ConversationEntry) : List String :=
  entries.foldl
    (fun acc e =>
      if e.role = "user" then
        acc ++ ((splitNLRuns e.content).take 3).filterMap
          (fun c => if testSelfRefRegex c || testKVRegex c then jsAddFact c else none)
      else acc) []

/-- The `# New observations` block appended when facts were extracted. -/
def obsBlock (entries : List ConversationEntry) : String :=
  "\n# New observations:\n" ++ String.intercalate "\n" (factsOf entries)

/-- The first element of the merged array:
`prevSummary ? prevSummary.trim() : `​`${head}\n- (none yet)`. -/
def prevPart (prevSummary : String) : String :=
  if prevSummary ≠ "" then jsTrim prevSummary
  else "Memory state (concise facts from earlier context):" ++ "\n- (none yet)"

/-- The merged summary text before truncation, `[first, obs?].join('\n')`:
previous summary (trimmed, or the seed header) first, newly extracted
facts appended at the end. -/
def mergedFull (prevSummary : String) (entries : List ConversationEntry) : String :=
  if factsOf entries ≠ [] then prevPart prevSummary ++ "\n" ++ obsBlock entries
  else prevPart prevSummary

/-- `updateSummaryHeuristic(prevSummary, entries)`: merge, then
`merged.slice(0, 1600)`. -/
def updateSummaryHeuristic (prevSummary : String) (entries : List ConversationEntry) : String :=
  jsSlice0 1600 (mergedFull prevSummary entries)

/-! ## Parsed JSON values

Items stored in the Redis lists are JSON documents; `JVal` is the result
of `JSON.parse`.  Numbers are modelled as rationals (ECMAScript number
formatting is abstracted as the parameter `numToStr` where needed). -/

inductive JVal : Type where
  | null : JVal
  | bool (b : Bool) : JVal
  | num (q : ℚ) : JVal
  | str (s : String) : JVal
  | arr (elems : List JVal) : JVal
  | obj (fields : List (String × JVal)) : JVal

/-- JavaScript truthiness of a parsed JSON value (`NaN` cannot arise
from `JSON.parse`). -/
def jsTruthy : JVal → Bool
  | .null => false
  | .bool b => b
  | .num q => q ≠ 0
  | .str s => s ≠ ""
  | .arr _ => true
  | .obj _ => true

/-- Property lookup on a parsed object: first binding of the name
(parsed JSON objects bind each name once). -/
def jLookup (fields : List (String × JVal)) (name : String) : Option JVal :=
  match fields.find? (fun p => p.1 = name) with
  | some p => some p.2
  | none => none

/-- Property read `v.name` as an `Option` (`none` = `undefined`). -/
def jGet (v : JVal) (name : String) : Option JVal :=
  match v with
  | .obj fields => jLookup fields name
  | _ => none

/-! ## The session store (Upstash Redis) -/

/-- A stored value: absent key, a list of JSON item documents (`none` is
an item that `JSON.parse` rejects), or a plain string (the shape of every
non-list value this program can meet; other Redis types behave exactly
like strings under `ensureListKey`). -/
inductive RVal : Type where
  | absent : RVal
  | list (items : List (Option JVal)) : RVal
  | str (s : String) : RVal

/-- The whole store: one value per key. -/
def Store : Type := String → RVal

/-- `client.type(key)`. -/
def typeName : RVal → String
  | .absent => "none"
  | .list _ => "list"
  | .str _ => "string"

/-- Point update of the store. -/
def setKey (st : Store) (k : String) (v : RVal) : Store :=
  fun k' => if k' = k then v else st k'

/-- `ensureListKey`: delete the key when its reported type is truthy and
neither `none` nor `list`. -/
def ensureListKey (st : Store) (k : String) : Store :=
  let t := typeName (st k)
  if t ≠ "" && t ≠ "none" && t ≠ "list" then setKey st k .absent else st

/-- The list items at a key (empty for an absent key, as Redis treats a
missing key as an empty list). -/
def itemsOf (st : Store) (k : String) : List (Option JVal) :=
  match st k with
  | .list l => l
  | _ => []

/-- `client.llen(key)`. -/
def llenSt (st : Store) (k : String) : Nat :=
  (itemsOf st k).length

/-- Redis `LRANGE`/`LTRIM` index window: inclusive `start..stop`,
negative indices counted from the end, clamped to the list. -/
def lrangeList {α : Type} (l : List α) (start stop : Int) : List α :=
  let len : Int := l.length
  let s := max (if start < 0 then len + start else start) 0
  let e := min (if stop < 0 then len + stop else stop) (len - 1)
  if s ≤ e then (l.drop s.toNat).take (e - s + 1).toNat else []

/-- `appendList`: no-op on an empty batch, else ensure the key is a list,
`RPUSH` one JSON document per entry (and refresh the TTL, not modelled).
Redis never stores an empty list, and `RPUSH` on an absent key creates
the list. -/
def appendListSt (st : Store) (k : String) (vs : List JVal) : Store :=
  match vs with
  | [] => st
  | _ :: _ =>
    let st1 := ensureListKey st k
    setKey st1 k (.list (itemsOf st1 k ++ vs.map some))

/-- `raw.map(s => JSON.parse-or-null).filter(Boolean)`: parse failures
(`none`) and falsy parses are dropped; every other parsed document is
kept as one element, whatever its shape. -/
def keptItems (raw : List (Option JVal)) : List JVal :=
  raw.filterMap (fun it =>
    match it with
    | some v => if jsTruthy v then some v else none
    | none => none)

/-- `lrangeJSON`: ensure the key is a list, `LRANGE`, `JSON.parse` each
raw item (a parse failure yields `null`), then `filter(Boolean)`. -/
def lrangeJSONSt (st : Store) (k : String) (start stop : Int) : Store × List JVal :=
  let st1 := ensureListKey st k
  (st1, keptItems (lrangeList (itemsOf st1 k) start stop))

/-- `ltrimKeepLast`: ensure the key is a list, `LTRIM key -maxItems -1`
(and refresh the TTL, not modelled).  JavaScript `-0` is serialized as
`0`, so `maxItems = 0` keeps the whole list.  Redis removes a key whose
list becomes empty. -/
def ltrimKeepLastSt (st : Store) (k : String) (maxItems : Nat) : Store :=
  let st1 := ensureListKey st k
  let kept := lrangeList (itemsOf st1 k) (-(maxItems : Int)) (-1)
  setKey st1 k (match kept with | [] => .absent | _ :: _ => .list kept)

/-- `readSummary`: `GET`, then `typeof v === 'string' ? v : ''`. -/
def readSummarySt (st : Store) (k : String) : String :=
  match st k with
  | .str v => v
  | _ => ""

/-- `writeSummary`: `SET key (text || '')` (TTL refresh not modelled). -/
def writeSummarySt (st : Store) (k : String) (text : String) : Store :=
  setKey st k (.str text)

/-! ## Redis keys of one session -/

/-- `stb:exec:${coreId}:${sessionId}`. -/
def keySTB (coreId sessionId : String) : String :=
  "stb:exec:" ++ coreId ++ ":" ++ sessionId

/-- `ltm:exec:${coreId}:${sessionId}`. -/
def keyLTM (coreId sessionId : String) : String :=
  "ltm:exec:" ++ coreId ++ ":" ++ sessionId

/-- `sum:exec:${coreId}:${sessionId}`. -/
def keySUM (coreId sessionId : String) : String :=
  "sum:exec:" ++ coreId ++ ":" ++ sessionId

/-! ## JavaScript value-to-string conversions

`String(v)` on parsed JSON values.  ECMAScript number formatting is the
parameter `numToStr`; no verified property depends on its output. -/

/-- Recogniser for the JSON `null` value. -/
def jsIsNull : JVal → Bool
  | .null => true
  | _ => false

/-- JavaScript `String(v)` for a parsed JSON value; inside an array
join, `null` renders as the empty string. -/
def jsStringOf (numToStr : ℚ → String) : JVal → String
  | .null => "null"
  | .bool true => "true"
  | .bool false => "false"
  | .num q => numToStr q
  | .str s => s
  | .arr xs =>
      String.intercalate ","
        (xs.attach.map (fun p =>
          if jsIsNull p.1 then "" else jsStringOf numToStr p.1))
  | .obj _ => "[object Object]"
decreasing_by
  simp only [JVal.arr.sizeOf_spec]
  have := List.sizeOf_lt_of_mem p.2
  omega

/-- `String(e.content || '')` on a parsed item: property read, falsy
values replaced by the empty string (reads on non-objects yield
`undefined`, hence the empty string; `null` items never reach this code
because `filter(Boolean)` removed them). -/
def jsContentString (numToStr : ℚ → String) (v : JVal) : String :=
  match jGet v "content" with
  | some c => if jsTruthy c then jsStringOf numToStr c else ""
  | none => ""

/-- JSON encoding of a conversation turn, with the field order of the
object literals in the handler. -/
def encodeEntry (e : ConversationEntry) : JVal :=
  .obj [("role", .str e.role), ("content", .str e.content),
        ("ts", .num (e.ts : ℚ)), ("locale", .str e.locale)]

/-- JavaScript `{...e}`: an object copies its fields; an array or string
spreads to an index-keyed object; primitives spread to an empty object. -/
def jsSpread : JVal → JVal
  | .obj fields => .obj fields
  | .arr xs => .obj (xs.enum.map (fun p => (toString p.1, p.2)))
  | .str s => .obj (s.data.enum.map (fun p => (toString p.1, JVal.str (String.mk [p.2]))))
  | _ => .obj []

/-- JavaScript property assignment `o.name = v`: replace an existing
binding in place, else append it. -/
def setProp (fields : List (String × JVal)) (name : String) (v : JVal) :
    List (String × JVal) :=
  if fields.any (fun p => p.1 = name) then
    fields.map (fun p => if p.1 = name then (name, v) else p)
  else fields ++ [(name, v)]

/-- `item.emb = emb` (the item is always an object here, being a spread
copy). -/
def jsSetField : JVal → String → JVal → JVal
  | .obj fields, name, v => .obj (setProp fields name v)
  | x, _, _ => x

/-! ## STB → LTM rollover (`rolloverSTBIfNeeded`)

The embedding provider is the parameter
`embed : String → Except Unit (Option (List ℚ))`: `.error` is a thrown
fetch/HTTP error, `.ok none` the `null` returned without a configured
key or vector, `.ok (some v)` a computed vector. -/

/-- One enrichment step of the rollover loop: spread-copy the entry,
then attach the embedding when a provider key is configured and the call
returns a (truthy) vector; a thrown error is swallowed. -/
def enrichOne (numToStr : ℚ → String) (hasKey : Bool)
    (embed : String → Except Unit (Option (List ℚ))) (e : JVal) : JVal :=
  let item := jsSpread e
  if hasKey then
    match embed (jsContentString numToStr e) with
    | .ok (some v) => jsSetField item "emb" (.arr (v.map JVal.num))
    | _ => item
  else item

/-- `rolloverSTBIfNeeded(coreId, sessionId)`. -/
def rolloverSt (numToStr : ℚ → String) (maxItems : Nat) (hasKey : Bool)
    (embed : String → Except Unit (Option (List ℚ)))
    (coreId sessionId : String) (st : Store) : Store :=
  let k := keySTB coreId sessionId
  let st1 := ensureListKey st k
  let len := llenSt st1 k
  if len ≤ maxItems then st1
  else
    let excess := len - maxItems
    let p := lrangeJSONSt st1 k 0 ((excess : Int) - 1)
    let st3 := ltrimKeepLastSt p.1 k maxItems
    appendListSt st3 (keyLTM coreId sessionId)
      (p.2.map (enrichOne numToStr hasKey embed))

/-! ## Summary maintenance (`maybeRefreshSummary`) -/

/-- `maybeRefreshSummary`: recompute the summary and write it only when
it changed. -/
def maybeRefreshSummarySt (coreId sessionId : String) (st : Store)
    (recent : List ConversationEntry) : Store :=
  let prev := readSummarySt st (keySUM coreId sessionId)
  let next := updateSummaryHeuristic prev recent
  if next ≠ prev then writeSummarySt st (keySUM coreId sessionId) next else st

/-! ## The `/chat` persistence pipeline -/

/-- The four persistence steps the `/chat` handler runs after a
successful completion, in source order: append both entries, trim to
capacity, roll over, refresh the summary. -/
def persistTurn (numToStr : ℚ → String) (maxItems : Nat) (hasKey : Bool)
    (embed : String → Except Unit (Option (List ℚ)))
    (coreId sessionId : String) (userE assistantE : ConversationEntry)
    (st : Store) : Store :=
  let st1 := appendListSt st (keySTB coreId sessionId)
    [encodeEntry userE, encodeEntry assistantE]
  let st2 := ltrimKeepLastSt st1 (keySTB coreId sessionId) maxItems
  let st3 := rolloverSt numToStr maxItems hasKey embed coreId sessionId st2
  maybeRefreshSummarySt coreId sessionId st3 [userE, assistantE]

/-- The store effect of `buildPrompt` (the read-side of a request): the
STB read, the summary read, and the recall scan over the last
`LTM_SCAN_LIMIT` LTM entries.  Scoring, token counting and the
completion call touch no session state. -/
def buildPromptStateEffect (scanLimit : Nat) (coreId sessionId : String)
    (st : Store) : Store :=
  let p1 := lrangeJSONSt st (keySTB coreId sessionId) 0 (-1)
  let p2 := lrangeJSONSt p1.1 (keyLTM coreId sessionId) (-(scanLimit : Int)) (-1)
  p2.1

/-- The `/chat` handler's session-state transition and outcome,
parameterised by the completion provider's result.  On a non-success or
timed-out completion the handler replies 502 `upstream_error` after only
the `buildPrompt` reads; on success it runs the persistence pipeline
and replies with the assistant text. -/
def chatTurnState (numToStr : ℚ → String) (maxItems scanLimit : Nat)
    (hasKey : Bool) (embed : String → Except Unit (Option (List ℚ)))
    (coreId sessionId locale : String) (userMsg : String)
    (completion : Except Unit String) (now : Int) (st : Store) :
    Store × Except String String :=
  let userE : ConversationEntry := ⟨"user", userMsg, now, locale⟩
  let st1 := buildPromptStateEffect scanLimit coreId sessionId st
  match completion with
  | .error _ => (st1, .error "upstream_error")
  | .ok assistantText =>
      (persistTurn numToStr maxItems hasKey embed coreId sessionId
        userE ⟨"assistant", assistantText, now, locale⟩ st1, .ok assistantText)

/-! ## Recall engine (`recallFromLTM`)

Recall is modelled over decoded entries (`RecEntry`): the shape every
item written by this program decodes to.  `keywordScore` and `cosineSim`
are IEEE-754 computations and enter as the parameters `kw` and `cos`;
no property below depends on the numbers they return. -/

/-- A decoded LTM candidate: role, content, and the optional stored
embedding vector (`Array.isArray(e.emb)`). -/
structure RecEntry where
  role : String
  content : String
  emb : Option (List ℚ)
deriving DecidableEq, Repr

/-- Score of one candidate: cosine similarity when both the query
embedding and the stored vector exist, else the keyword score of the
content. -/
def scoreOf (kw : String → String → ℚ) (cos : List ℚ → List ℚ → ℚ)
    (qEmb : Option (List ℚ)) (userMsg : String) (e : RecEntry) : ℚ :=
  match qEmb, e.emb with
  | some q, some v => cos q v
  | _, _ => kw userMsg e.content

/-- The comparator `(a, b) => b.score - a.score`: `a` sorts no later
than `b` iff `b`'s score is at most `a`'s. -/
def scoreGE (a b : ℚ × RecEntry) : Prop := b.1 ≤ a.1

instance : DecidableRel scoreGE := fun a b => inferInstanceAs (Decidable (b.1 ≤ a.1))

instance : IsTotal (ℚ × RecEntry) scoreGE := ⟨fun a b => le_total b.1 a.1⟩

instance : IsTrans (ℚ × RecEntry) scoreGE := ⟨fun _ _ _ hab hbc => le_trans hbc hab⟩

/-- The dedup key `` `${e.role}:${e.content.slice(0, 120)}` ``. -/
def dedupKey (e : RecEntry) : String :=
  e.role ++ ":" ++ jsSlice0 120 e.content

/-- The dedup loop over the top-K list: keep an entry unless its key was
already seen, remembering keys in insertion order. -/
def dedupAux : List String → List RecEntry → List RecEntry
  | _, [] => []
  | seen, e :: rest =>
      if dedupKey e ∈ seen then dedupAux seen rest
      else e :: dedupAux (dedupKey e :: seen) rest

/-- The pure core of `recallFromLTM` given the query embedding: score
every candidate, stable-sort by descending score (V8's sort is stable,
as is insertion sort with this comparator), take the top K, dedup. -/
def recallCore (kw : String → String → ℚ) (cos : List ℚ → List ℚ → ℚ)
    (topK : Nat) (qEmb : Option (List ℚ)) (userMsg : String)
    (all : List RecEntry) : List RecEntry :=
  match all with
  | [] => []
  | _ :: _ =>
    let scored := all.map (fun e => (scoreOf kw cos qEmb userMsg e, e))
    let sorted := List.insertionSort scoreGE scored
    let top := (sorted.take topK).map Prod.snd
    dedupAux [] top

/-- The query-embedding step of `recallFromLTM`: only attempted with a
configured provider key, and a thrown error is caught and leaves the
embedding `null`. -/
def recallQEmb (hasKey : Bool) (embed : String → Except Unit (Option (List ℚ)))
    (userMsg : String) : Option (List ℚ) :=
  if hasKey then
    match embed userMsg with
    | .ok v => v
    | .error _ => none
  else none

/-! ## Context assembler (`buildPrompt`)

The token-counting oracle is the parameter
`count : String → List AMsg → Nat` (an external collaborator). -/

/-- An Anthropic message as built by `toAnthropicMessage`: a role and
the text of its single text block. -/
structure AMsg where
  role : String
  text : String
deriving DecidableEq, Repr

/-- `item.role === 'assistant'` on a parsed item. -/
def jRoleIsAssistant (v : JVal) : Bool :=
  match jGet v "role" with
  | some (.str s) => s = "assistant"
  | _ => false

/-- `toAnthropicMessage` on a parsed stored item:
`{ role: item.role === 'assistant' ? 'assistant' : 'user',
   content: [{ type: 'text', text: String(item.content ?? '') }] }`. -/
def toAnthropicMessageJ (numToStr : ℚ → String) (item : JVal) : AMsg :=
  ⟨if jRoleIsAssistant item then "assistant" else "user",
   match jGet item "content" with
   | none => ""
   | some .null => ""
   | some v => jsStringOf numToStr v⟩

/-- `toAnthropicMessage` on the fresh user entry object. -/
def toAnthropicMessageEntry (e : ConversationEntry) : AMsg :=
  ⟨if e.role = "assistant" then "assistant" else "user", e.content⟩

/-- `` summary ? `\n\n${summary}` : '' ``. -/
def summaryBlockOf (summary : String) : String :=
  if summary ≠ "" then "\n\n" ++ summary else ""

/-- The recall block: empty when nothing was recalled. -/
def recalledBlockOf (recalled : List RecEntry) : String :=
  match recalled with
  | [] => ""
  | _ :: _ =>
      "\n\nRelevant context (retrieved):\n" ++
        String.intercalate "\n"
          (recalled.map (fun e => "- " ++ e.role ++ ": " ++ e.content))

/-- The assembled payload `{ system, messages }`. -/
structure Payload where
  system : String
  messages : List AMsg
deriving DecidableEq, Repr

/-- The STB-trimming `while` loop of `buildPrompt`: shift the oldest
entry, rebuild the messages, recount, and stop as soon as the budget is
met or the working list is empty.  Arguments mirror the mutated
variables `work`, `messages`, `tokens`. -/
def trimLoop (numToStr : ℚ → String) (count : String → List AMsg → Nat)
    (maxOut budget : Nat) (system : String) (userMsg : AMsg) :
    List JVal → List AMsg → Nat → List AMsg × Nat
  | [], msgs, tokens => (msgs, tokens)
  | _ :: work, _, _ =>
      let msgs := work.map (toAnthropicMessageJ numToStr) ++ [userMsg]
      let tokens := count system msgs
      if tokens + maxOut ≤ budget then (msgs, tokens)
      else trimLoop numToStr count maxOut budget system userMsg work msgs tokens

/-- `buildPrompt`, as a pure function of its reads: the STB items, the
summary, the recall output, and the new user entry. -/
def buildPromptCore (numToStr : ℚ → String) (count : String → List AMsg → Nat)
    (maxOut budget : Nat) (base locale summary : String)
    (recalled : List RecEntry) (stb : List JVal) (userE : ConversationEntry) :
    Payload :=
  let summaryBlock := summaryBlockOf summary
  let recalledBlock := recalledBlockOf recalled
  let system0 := base ++ "\nLocale: " ++ locale ++ summaryBlock ++ recalledBlock
  let userMsg := toAnthropicMessageEntry userE
  let msgs0 := stb.map (toAnthropicMessageJ numToStr) ++ [userMsg]
  let t0 := count system0 msgs0
  if t0 + maxOut ≤ budget then ⟨system0, msgs0⟩
  else
    let p := trimLoop numToStr count maxOut budget system0 userMsg stb msgs0 t0
    let q :=
      if budget < p.2 + maxOut ∧ recalledBlock ≠ "" then
        let s2 := base ++ "\nLocale: " ++ locale ++ summaryBlock
        (s2, count s2 p.1)
      else (system0, p.2)
    let system3 :=
      if budget < q.2 + maxOut ∧ summaryBlock ≠ "" then base ++ "\nLocale: " ++ locale
      else q.1
    ⟨system3, p.1⟩

/-! ## The degradation ladder, as the specification describes it -/

/-- The successive values of the loop variable `work`: the STB minus one
oldest entry, minus two, …, down to the empty list. -/
def shiftChain {α : Type} : List α → List (List α)
  | [] => []
  | _ :: rest => rest :: shiftChain rest

/-- The ordered candidate payloads of the degradation ladder: the full
payload, then the STB suffixes after each oldest-first trim, then (when
a recall block exists) the payload without it, then (when a summary
block exists) the bare payload.  The last two stages always carry the
fully trimmed message list. -/
def ladderCandidates (numToStr : ℚ → String) (base locale summary : String)
    (recalled : List RecEntry) (stb : List JVal) (userE : ConversationEntry) :
    List Payload :=
  let summaryBlock := summaryBlockOf summary
  let recalledBlock := recalledBlockOf recalled
  let system0 := base ++ "\nLocale: " ++ locale ++ summaryBlock ++ recalledBlock
  let userMsg := toAnthropicMessageEntry userE
  ((stb :: shiftChain stb).map
      (fun w => ⟨system0, w.map (toAnthropicMessageJ numToStr) ++ [userMsg]⟩))
    ++ (if recalledBlock ≠ "" then
          [⟨base ++ "\nLocale: " ++ locale ++ summaryBlock, [userMsg]⟩]
        else [])
    ++ (if summaryBlock ≠ "" then [⟨base ++ "\nLocale: " ++ locale, [userMsg]⟩]
        else [])

/-- Whether a candidate fits the budget. -/
def fitsCand (count : String → List AMsg → Nat) (maxOut budget : Nat)
    (p : Payload) : Bool :=
  decide (count p.system p.messages + maxOut ≤ budget)

/-- The first candidate within budget, or the last candidate when none
fits (the enforcer never errors). -/
def firstFitOrLast (count : String → List AMsg → Nat) (maxOut budget : Nat)
    (cands : List Payload) : Payload :=
  match cands.find? (fitsCand count maxOut budget) with
  | some p => p
  | none => cands.getLastD ⟨"", []⟩

/-! ## Auxiliary shape predicates and concrete scenario states -/

/-- Whether a stored value is absent or a list (the shapes `ensureListKey`
lets through). -/
def isListOrAbsent : RVal → Bool
  | .str _ => false
  | _ => true

/-- Whether a parsed JSON value is an object. -/
def jsIsObj : JVal → Bool
  | .obj _ => true
  | _ => false

/-- The specification's §8 STB scenario executed by the code: STB max 4,
no embedding provider, three user/assistant pairs appended sequentially
by the `/chat` persistence pipeline, starting from an empty store. -/
def scenarioMax4 : Store :=
  persistTurn (fun _ => "") 4 false (fun _ => .ok none) "core" "sess"
    ⟨"user", "hello three", 5, "uk"⟩ ⟨"assistant", "reply three", 6, "uk"⟩
    (persistTurn (fun _ => "") 4 false (fun _ => .ok none) "core" "sess"
      ⟨"user", "hello two", 3, "uk"⟩ ⟨"assistant", "reply two", 4, "uk"⟩
      (persistTurn (fun _ => "") 4 false (fun _ => .ok none) "core" "sess"
        ⟨"user", "hello one", 1, "uk"⟩ ⟨"assistant", "reply one", 2, "uk"⟩
        (fun _ => RVal.absent)))

/-- A store whose LTM list holds one legacy mis-encoded item: a JSON
array of two entries in a single list slot. -/
def legacyArrayStore : Store :=
  setKey (fun _ => RVal.absent) (keyLTM "core" "sess")
    (.list [some (.arr [encodeEntry ⟨"user", "old question", 1, "uk"⟩,
                        encodeEntry ⟨"assistant", "old answer", 2, "uk"⟩])])

/-- A 1600-character summary, exactly at the truncation cap. -/
def longSummary : String :=
  String.mk (List.replicate 1600 'a')

/-- A store whose STB holds three well-formed entries: one over a
capacity of two, so a rollover fires and must archive the oldest entry. -/
def rolloverDemoStore : Store :=
  setKey (fun _ => RVal.absent) (keySTB "core" "sess")
    (.list [some (encodeEntry ⟨"user", "one", 1, "uk"⟩),
            some (encodeEntry ⟨"user", "two", 2, "uk"⟩),
            some (encodeEntry ⟨"user", "three", 3, "uk"⟩)])

/-! ## Basic store lemmas -/

lemma setKey_self (st : Store) (k : String) (v : RVal) : setKey st k v k = v := by
  simp [setKey]

lemma setKey_other (st : Store) (k : String) (v : RVal) (k' : String) (h : k' ≠ k) :
    setKey st k v k' = st k' := by
  simp [setKey, h]

lemma ensureListKey_cases (st : Store) (k : String) :
    ensureListKey st k = st ∨ ensureListKey st k = setKey st k .absent := by
  unfold ensureListKey
  dsimp only
  split
  · right; rfl
  · left; rfl

lemma ensureListKey_other (st : Store) (k k' : String) (h : k' ≠ k) :
    ensureListKey st k k' = st k' := by
  rcases ensureListKey_cases st k with h1 | h1 <;> rw [h1]
  exact setKey_other st k _ k' h

lemma itemsOf_ensure (st : Store) (k : String) :
    itemsOf (ensureListKey st k) k = itemsOf st k := by
  unfold ensureListKey itemsOf
  rcases hv : st k with _ | l | s <;> simp [typeName, hv, setKey]

lemma llen_ensure (st : Store) (k : String) :
    llenSt (ensureListKey st k) k = llenSt st k := by
  simp [llenSt, itemsOf_ensure]

lemma lrangeList_keepLast_length {α : Type} (l : List α) (m : Nat) (hm : 1 ≤ m) :
    (lrangeList l (-(m : Int)) (-1)).length = min l.length m := by
  unfold lrangeList
  dsimp only
  split_ifs <;> simp_all [List.length_take, List.length_drop] <;> omega

lemma itemsOf_ltrim (st : Store) (k : String) (m : Nat) :
    itemsOf (ltrimKeepLastSt st k m) k = lrangeList (itemsOf st k) (-(m : Int)) (-1) := by
  unfold ltrimKeepLastSt
  dsimp only
  rw [itemsOf_ensure]
  rcases hk : lrangeList (itemsOf st k) (-(m : Int)) (-1) with _ | ⟨x, xs⟩ <;>
    simp [itemsOf, setKey, hk]

lemma ltrim_other (st : Store) (k : String) (m : Nat) (k' : String) (h : k' ≠ k) :
    ltrimKeepLastSt st k m k' = st k' := by
  unfold ltrimKeepLastSt
  rw [setKey_other _ _ _ _ h, ensureListKey_other _ _ _ h]

lemma itemsOf_append_cons (st : Store) (k : String) (v : JVal) (vs : List JVal) :
    itemsOf (appendListSt st k (v :: vs)) k = itemsOf st k ++ (v :: vs).map some := by
  unfold appendListSt
  rw [← itemsOf_ensure st k]
  simp [itemsOf, setKey]

lemma append_other (st : Store) (k : String) (vs : List JVal) (k' : String) (h : k' ≠ k) :
    appendListSt st k vs k' = st k' := by
  unfold appendListSt
  rcases vs with _ | ⟨v, vs⟩
  · rfl
  · dsimp only
    rw [setKey_other _ _ _ _ h, ensureListKey_other _ _ _ h]

lemma rollover_noop (numToStr : ℚ → String) (m : Nat) (hasKey : Bool)
    (embed : String → Except Unit (Option (List ℚ))) (c s : String) (st : Store)
    (hlen : llenSt st (keySTB c s) ≤ m) :
    rolloverSt numToStr m hasKey embed c s st = ensureListKey st (keySTB c s) := by
  unfold rolloverSt
  dsimp only
  rw [if_pos]
  simpa [llenSt, itemsOf_ensure]

lemma keySTB_ne_keyLTM (c s : String) : keySTB c s ≠ keyLTM c s := by
  intro h
  have h1 : (keySTB c s).data.head? = (keyLTM c s).data.head? := by rw [h]
  simp [keySTB, keyLTM, String.data_append] at h1

lemma keySTB_ne_keySUM (c s : String) : keySTB c s ≠ keySUM c s := by
  intro h
  have h1 : (keySTB c s).data[1]? = (keySUM c s).data[1]? := by rw [h]
  simp [keySTB, keySUM, String.data_append] at h1

lemma keyLTM_ne_keySUM (c s : String) : keyLTM c s ≠ keySUM c s := by
  intro h
  have h1 : (keyLTM c s).data.head? = (keySUM c s).data.head? := by rw [h]
  simp [keyLTM, keySUM, String.data_append] at h1

lemma maybeRefresh_other (c s : String) (st : Store) (recent : List ConversationEntry)
    (k' : String) (h : k' ≠ keySUM c s) :
    maybeRefreshSummarySt c s st recent k' = st k' := by
  unfold maybeRefreshSummarySt writeSummarySt
  split
  · exact setKey_other _ _ _ _ h
  · rfl

lemma itemsOf_congr (st1 st2 : Store) (k : String) (h : st1 k = st2 k) :
    itemsOf st1 k = itemsOf st2 k := by
  unfold itemsOf
  rw [h]

/-! ## C5 — the STB stays bounded after every write path -/

/-- **C5.**  For every starting store (hence after any sequence of
turns) and any positive STB capacity, the STB list holds at most
`STB_MAX_ITEMS` items immediately after the `/chat` persistence
pipeline completes. -/
theorem C5_stb_bounded_after_persist (numToStr : ℚ → String) (maxItems : Nat)
    (hasKey : Bool) (embed : String → Except Unit (Option (List ℚ)))
    (c s : String) (uE aE : ConversationEntry) (st : Store) (hm : 1 ≤ maxItems) :
    llenSt (persistTurn numToStr maxItems hasKey embed c s uE aE st) (keySTB c s)
      ≤ maxItems := by
  dsimp only [persistTurn]
  have h1 : llenSt (ltrimKeepLastSt
      (appendListSt st (keySTB c s) [encodeEntry uE, encodeEntry aE]) (keySTB c s) maxItems)
      (keySTB c s) ≤ maxItems := by
    rw [llenSt, itemsOf_ltrim, lrangeList_keepLast_length _ _ hm]
    omega
  rw [rollover_noop _ _ _ _ _ _ _ h1]
  rw [llenSt, itemsOf_congr _ _ _ (maybeRefresh_other _ _ _ _ _ (keySTB_ne_keySUM c s))]
  rw [← llenSt, llen_ensure]
  exact h1

/-- **C5 witness.**  The bound instantiated at the concrete §8 scenario
(capacity 4, third turn). -/
theorem C5_stb_bounded_witness :
    (1 : Nat) ≤ 4 ∧ llenSt scenarioMax4 (keySTB "core" "sess") ≤ 4 := by
  constructor
  · decide
  · exact C5_stb_bounded_after_persist (fun _ => "") 4 false (fun _ => .ok none)
      "core" "sess" ⟨"user", "hello three", 5, "uk"⟩ ⟨"assistant", "reply three", 6, "uk"⟩
      _ (by decide)

/-! ## C1 — overflow routing to LTM (the spec scenario, as the code runs it) -/

/-- **C1.**  The §8 scenario (STB max 4, three user/assistant pairs
appended sequentially) as the `/chat` handler actually executes it: the
STB does hold exactly the last four entries, but the LTM key was never
written — it is still absent, holding zero entries instead of the first
pair.  The handler calls `ltrimKeepLast` *before* `rolloverSTBIfNeeded`,
so the overflow is discarded by the trim and the rollover's
`len <= STB_MAX_ITEMS` guard then always fires; the overflow pair is
dropped silently, contradicting the claim that trimming always routes
the overflow to the rollover path. -/
theorem C1_overflow_is_discarded_not_rolled_over :
    itemsOf scenarioMax4 (keySTB "core" "sess") =
      [some (encodeEntry ⟨"user", "hello two", 3, "uk"⟩),
       some (encodeEntry ⟨"assistant", "reply two", 4, "uk"⟩),
       some (encodeEntry ⟨"user", "hello three", 5, "uk"⟩),
       some (encodeEntry ⟨"assistant", "reply three", 6, "uk"⟩)] ∧
    scenarioMax4 (keyLTM "core" "sess") = RVal.absent ∧
    (itemsOf scenarioMax4 (keyLTM "core" "sess")).length = 0 := by
  exact ⟨rfl, rfl, rfl⟩

/-! ## C2 / C7 — summary merge: duplication and truncation direction -/

lemma mk_data (s : String) : String.mk s.data = s := rfl

lemma updateSummary_of_facts (prev : String) (entries : List ConversationEntry)
    (hprev : prev ≠ "") (hfacts : factsOf entries ≠ []) :
    updateSummaryHeuristic prev entries
      = jsSlice0 1600 (jsTrim prev ++ "\n" ++ obsBlock entries) := by
  simp [updateSummaryHeuristic, mergedFull, prevPart, hprev, hfacts]

/-- **C2 (amended).**  Summary merging is not idempotent: whenever fact
extraction yields at least one fact, merging the same facts into the
already-merged summary appends the `# New observations` block a second
time — under no truncation (and with a merged text that `trim` leaves
unchanged), the twice-merged summary strictly extends the once-merged
one with a duplicate of the facts block, so
`merge(merge(S, facts), facts) ≠ merge(S, facts)`. -/
theorem C2_merge_duplicates_facts (prev : String) (entries : List ConversationEntry)
    (hfacts : factsOf entries ≠ [])
    (hM : updateSummaryHeuristic prev entries ≠ "")
    (htrim : jsTrim (updateSummaryHeuristic prev entries) = updateSummaryHeuristic prev entries)
    (hlen : (updateSummaryHeuristic prev entries).length + 1 + (obsBlock entries).length ≤ 1600) :
    updateSummaryHeuristic (updateSummaryHeuristic prev entries) entries
        = updateSummaryHeuristic prev entries ++ "\n" ++ obsBlock entries ∧
    updateSummaryHeuristic (updateSummaryHeuristic prev entries) entries
        ≠ updateSummaryHeuristic prev entries := by
  set M := updateSummaryHeuristic prev entries with hMdef
  have h1 := updateSummary_of_facts M entries hM hfacts
  rw [htrim] at h1
  have h2 : jsSlice0 1600 (M ++ "\n" ++ obsBlock entries) = M ++ "\n" ++ obsBlock entries := by
    unfold jsSlice0
    rw [List.take_of_length_le, mk_data]
    have h3 : (M ++ "\n" ++ obsBlock entries).length
        = (M ++ "\n" ++ obsBlock entries).data.length := rfl
    rw [← h3, String.length_append, String.length_append]
    simpa using hlen
  rw [h1, h2]
  refine ⟨rfl, ?_⟩
  intro hcontra
  have h4 := congrArg String.length hcontra
  rw [String.length_append, String.length_append] at h4
  have hn : ("\n" : String).length = 1 := rfl
  rw [hn] at h4
  omega

/-- **C2 witness.**  The duplication instantiated at a concrete input:
previous summary empty, one user entry stating `my name: Bob`. -/
theorem C2_merge_duplicates_facts_witness :
    factsOf [⟨"user", "my name: Bob", 1, "uk"⟩] ≠ [] ∧
    updateSummaryHeuristic
        (updateSummaryHeuristic "" [⟨"user", "my name: Bob", 1, "uk"⟩])
        [⟨"user", "my name: Bob", 1, "uk"⟩]
      = updateSummaryHeuristic "" [⟨"user", "my name: Bob", 1, "uk"⟩] ++ "\n"
          ++ obsBlock [⟨"user", "my name: Bob", 1, "uk"⟩] ∧
    updateSummaryHeuristic
        (updateSummaryHeuristic "" [⟨"user", "my name: Bob", 1, "uk"⟩])
        [⟨"user", "my name: Bob", 1, "uk"⟩]
      ≠ updateSummaryHeuristic "" [⟨"user", "my name: Bob", 1, "uk"⟩] := by
  refine ⟨by decide, ?_, ?_⟩
  · exact (C2_merge_duplicates_facts "" [⟨"user", "my name: Bob", 1, "uk"⟩]
      (by decide) (by decide) (by decide) (by decide)).1
  · exact (C2_merge_duplicates_facts "" [⟨"user", "my name: Bob", 1, "uk"⟩]
      (by decide) (by decide) (by decide) (by decide)).2

/-- **C2 counterexample.**  The claim `merge(merge(S, facts), facts) =
merge(S, facts)` is false at the concrete input `S = ""` with one user
entry `my name: Bob`: applying the same fact twice duplicates it. -/
theorem C2_merge_not_idempotent_counterexample :
    updateSummaryHeuristic
        (updateSummaryHeuristic "" [⟨"user", "my name: Bob", 1, "uk"⟩])
        [⟨"user", "my name: Bob", 1, "uk"⟩]
      ≠ updateSummaryHeuristic "" [⟨"user", "my name: Bob", 1, "uk"⟩] := by
  decide

/-- **C7 (amended).**  The merged summary is truncated to 1600
characters by keeping the *first* 1600 characters: the result is always
a prefix of the untruncated merged text, whose tail is the newly
extracted facts block — so when truncation occurs it is the newest
content that is dropped and the oldest that is retained. -/
theorem C7_truncation_keeps_oldest_prefix (prev : String)
    (entries : List ConversationEntry) :
    (updateSummaryHeuristic prev entries).length ≤ 1600 ∧
    (updateSummaryHeuristic prev entries).data <+: (mergedFull prev entries).data ∧
    (factsOf entries = [] ∨
      mergedFull prev entries = prevPart prev ++ "\n" ++ obsBlock entries) := by
  refine ⟨?_, ?_, ?_⟩
  · show (jsSlice0 1600 (mergedFull prev entries)).data.length ≤ 1600
    simp [jsSlice0]
  · exact List.take_prefix _ _
  · by_cases h : factsOf entries = []
    · exact Or.inl h
    · exact Or.inr (by simp [mergedFull, h])

lemma dropWhile_replicate_of_neg {α : Type} (p : α → Bool) (n : Nat) (c : α)
    (hc : p c = false) :
    (List.replicate n c).dropWhile p = List.replicate n c := by
  cases n with
  | zero => rfl
  | succ n => simp [List.replicate_succ, List.dropWhile_cons, hc]

lemma longSummary_data : longSummary.data = List.replicate 1600 'a' := rfl

lemma jsTrim_longSummary : jsTrim longSummary = longSummary := by
  unfold jsTrim
  rw [longSummary_data]
  rw [dropWhile_replicate_of_neg _ _ _ (by decide), List.reverse_replicate,
    dropWhile_replicate_of_neg _ _ _ (by decide), List.reverse_replicate]
  rfl

lemma longSummary_ne_empty : longSummary ≠ "" := by
  intro h
  have h1 := congrArg String.length h
  have h2 : longSummary.length = 1600 := by
    show longSummary.data.length = 1600
    rw [longSummary_data, List.length_replicate]
  rw [h2] at h1
  simp at h1

/-- **C7 counterexample.**  At a 1600-character previous summary and a
turn that yields the new fact `- my name: Bob`, the merged summary is
exactly the old summary: the newest fact is dropped wholesale while all
of the oldest content is retained — the opposite of "oldest content
implicitly dropped, newest facts retained". -/
theorem C7_newest_facts_dropped_counterexample :
    factsOf [⟨"user", "my name: Bob", 1, "uk"⟩] = ["- my name: Bob"] ∧
    updateSummaryHeuristic longSummary [⟨"user", "my name: Bob", 1, "uk"⟩]
      = longSummary := by
  constructor
  · decide
  · have hfacts : factsOf [(⟨"user", "my name: Bob", 1, "uk"⟩ : ConversationEntry)] ≠ [] := by
      decide
    have h1 := updateSummary_of_facts longSummary _ longSummary_ne_empty hfacts
    rw [jsTrim_longSummary] at h1
    rw [h1]
    unfold jsSlice0
    have hdata : (longSummary ++ "\n"
          ++ obsBlock [(⟨"user", "my name: Bob", 1, "uk"⟩ : ConversationEntry)]).data
        = List.replicate 1600 'a'
          ++ ("\n" ++ obsBlock [(⟨"user", "my name: Bob", 1, "uk"⟩ : ConversationEntry)]).data := by
      rw [String.data_append, String.data_append, longSummary_data, List.append_assoc]
      rfl
    rw [hdata, List.take_append_eq_append_take, List.length_replicate,
      Nat.sub_self, List.take_zero, List.append_nil, List.take_replicate,
      Nat.min_self]
    exact congrArg String.mk longSummary_data.symm

/-! ## C10 — every list operation normalises its key's type -/

lemma ensure_post (st : Store) (k : String) :
    isListOrAbsent ((ensureListKey st k) k) = true := by
  rcases hv : st k with _ | l | s' <;>
    simp [ensureListKey, typeName, hv, setKey, isListOrAbsent]

lemma ltrim_post (st : Store) (k : String) (m : Nat) :
    isListOrAbsent ((ltrimKeepLastSt st k m) k) = true := by
  unfold ltrimKeepLastSt
  rw [setKey_self]
  rcases lrangeList (itemsOf (ensureListKey st k) k) (-(m : Int)) (-1) with _ | ⟨x, xs⟩ <;> rfl

lemma rollover_other (numToStr : ℚ → String) (m : Nat) (hasKey : Bool)
    (embed : String → Except Unit (Option (List ℚ))) (c s : String) (st : Store)
    (k' : String) (h1 : k' ≠ keySTB c s) (h2 : k' ≠ keyLTM c s) :
    rolloverSt numToStr m hasKey embed c s st k' = st k' := by
  unfold rolloverSt
  dsimp only
  split
  · exact ensureListKey_other _ _ _ h1
  · rw [append_other _ _ _ _ h2, ltrim_other _ _ _ _ h1]
    show ensureListKey (ensureListKey st (keySTB c s)) (keySTB c s) k' = st k'
    rw [ensureListKey_other _ _ _ h1, ensureListKey_other _ _ _ h1]

/-- **C10.**  Every STB/LTM list operation — the writes (`appendList`,
`ltrimKeepLast`) and the read-only ones (`lrangeJSON`, used for reading
all entries and the recall scan, and `rolloverSTBIfNeeded`'s length
check) — first runs `ensureListKey`, which deletes the key when the
store reports a type that is neither `none` nor `list`.  Consequently
the operated-on key is afterwards either absent or a list; a mere read
deletes previously persisted data of mismatched type (it becomes
absent); and every other key is left unchanged. -/
theorem C10_list_ops_normalise_key_type (numToStr : ℚ → String) (m : Nat)
    (hasKey : Bool) (embed : String → Except Unit (Option (List ℚ)))
    (c s : String) (st : Store) (k : String) (v : JVal) (vs : List JVal)
    (start stop : Int) :
    isListOrAbsent ((ensureListKey st k) k) = true ∧
    isListOrAbsent ((appendListSt st k (v :: vs)) k) = true ∧
    isListOrAbsent ((lrangeJSONSt st k start stop).1 k) = true ∧
    isListOrAbsent ((ltrimKeepLastSt st k m) k) = true ∧
    isListOrAbsent ((rolloverSt numToStr m hasKey embed c s st) (keySTB c s)) = true ∧
    (isListOrAbsent (st k) = false → (lrangeJSONSt st k start stop).1 k = .absent) ∧
    (∀ k', k' = k ∨ (ensureListKey st k k' = st k' ∧
        appendListSt st k (v :: vs) k' = st k' ∧
        (lrangeJSONSt st k start stop).1 k' = st k' ∧
        ltrimKeepLastSt st k m k' = st k')) ∧
    (∀ k', k' = keySTB c s ∨ k' = keyLTM c s ∨
        rolloverSt numToStr m hasKey embed c s st k' = st k') := by
  refine ⟨ensure_post st k, ?_, ensure_post st k, ltrim_post st k m, ?_, ?_, ?_, ?_⟩
  · show isListOrAbsent (setKey (ensureListKey st k) k
        (RVal.list (itemsOf (ensureListKey st k) k ++ List.map some (v :: vs))) k) = true
    rw [setKey_self]
    rfl
  · unfold rolloverSt
    dsimp only
    split
    · exact ensure_post st (keySTB c s)
    · rcases hmv : (lrangeJSONSt (ensureListKey st (keySTB c s)) (keySTB c s) 0
          ((llenSt (ensureListKey st (keySTB c s)) (keySTB c s) - m : Nat) - 1)).2.map
          (enrichOne numToStr hasKey embed) with _ | ⟨x, xs⟩
      · show isListOrAbsent (ltrimKeepLastSt _ (keySTB c s) m (keySTB c s)) = true
        exact ltrim_post _ _ _
      · show isListOrAbsent (setKey _ (keyLTM c s) _ (keySTB c s)) = true
        rw [setKey_other _ _ _ _ (keySTB_ne_keyLTM c s)]
        rw [ensureListKey_other _ _ _ (keySTB_ne_keyLTM c s)]
        exact ltrim_post _ _ _
  · intro hmis
    rcases hv : st k with _ | l | s'
    · rw [hv] at hmis; simp [isListOrAbsent] at hmis
    · rw [hv] at hmis; simp [isListOrAbsent] at hmis
    · show ensureListKey st k k = RVal.absent
      simp [ensureListKey, typeName, hv, setKey]
  · intro k'
    by_cases h : k' = k
    · exact Or.inl h
    · exact Or.inr ⟨ensureListKey_other _ _ _ h, append_other _ _ _ _ h,
        ensureListKey_other _ _ _ h, ltrim_other _ _ _ _ h⟩
  · intro k'
    by_cases h1 : k' = keySTB c s
    · exact Or.inl h1
    by_cases h2 : k' = keyLTM c s
    · exact Or.inr (Or.inl h2)
    · exact Or.inr (Or.inr (rollover_other _ _ _ _ _ _ _ _ h1 h2))

/-- **C10 witness.**  A key persisted with a string value (a mismatched
type) is deleted by the mere read `lrangeJSON`. -/
theorem C10_list_ops_normalise_witness :
    isListOrAbsent ((fun _ => RVal.str "legacy") "stb:exec:core:sess") = false ∧
    (lrangeJSONSt (fun _ => RVal.str "legacy") "stb:exec:core:sess" 0 (-1)).1
      "stb:exec:core:sess" = RVal.absent := by
  refine ⟨rfl, ?_⟩
  exact (C10_list_ops_normalise_key_type (fun _ => "") 4 false (fun _ => .ok none)
    "core" "sess" (fun _ => RVal.str "legacy") "stb:exec:core:sess" JVal.null [] 0
    (-1)).2.2.2.2.2.1 rfl

/-! ## C8 — a failed completion mutates no session state -/

/-- **C8.**  When the completion call returns non-success or times out,
the `/chat` handler replies with the `upstream_error` outcome and no
session state is mutated: the STB list, the LTM list and the Summary
string hold the same values after the failed request as before it, and
any store change is confined to the type-normalisation of the two
session list keys performed by the `buildPrompt` reads. -/
theorem C8_failed_completion_preserves_state (numToStr : ℚ → String)
    (maxItems scanLimit : Nat) (hasKey : Bool)
    (embed : String → Except Unit (Option (List ℚ))) (c s locale userMsg : String)
    (err : Unit) (now : Int) (st : Store) :
    (chatTurnState numToStr maxItems scanLimit hasKey embed c s locale userMsg
        (.error err) now st).2 = .error "upstream_error" ∧
    itemsOf (chatTurnState numToStr maxItems scanLimit hasKey embed c s locale userMsg
        (.error err) now st).1 (keySTB c s) = itemsOf st (keySTB c s) ∧
    itemsOf (chatTurnState numToStr maxItems scanLimit hasKey embed c s locale userMsg
        (.error err) now st).1 (keyLTM c s) = itemsOf st (keyLTM c s) ∧
    readSummarySt (chatTurnState numToStr maxItems scanLimit hasKey embed c s locale userMsg
        (.error err) now st).1 (keySUM c s) = readSummarySt st (keySUM c s) ∧
    (∀ k, k = keySTB c s ∨ k = keyLTM c s ∨
      (chatTurnState numToStr maxItems scanLimit hasKey embed c s locale userMsg
        (.error err) now st).1 k = st k) := by
  have hst : (chatTurnState numToStr maxItems scanLimit hasKey embed c s locale userMsg
      (.error err) now st).1
      = ensureListKey (ensureListKey st (keySTB c s)) (keyLTM c s) := rfl
  refine ⟨rfl, ?_, ?_, ?_, ?_⟩
  · rw [hst]
    rw [itemsOf_congr _ (ensureListKey st (keySTB c s)) _
      (ensureListKey_other _ _ _ (keySTB_ne_keyLTM c s))]
    exact itemsOf_ensure _ _
  · rw [hst, itemsOf_ensure]
    exact itemsOf_congr _ st _
      (ensureListKey_other _ _ _ (Ne.symm (keySTB_ne_keyLTM c s)))
  · rw [hst]
    unfold readSummarySt
    rw [ensureListKey_other _ _ _ (Ne.symm (keyLTM_ne_keySUM c s)),
      ensureListKey_other _ _ _ (Ne.symm (keySTB_ne_keySUM c s))]
  · intro k
    by_cases h1 : k = keySTB c s
    · exact Or.inl h1
    by_cases h2 : k = keyLTM c s
    · exact Or.inr (Or.inl h2)
    refine Or.inr (Or.inr ?_)
    rw [hst, ensureListKey_other _ _ _ h2, ensureListKey_other _ _ _ h1]

/-! ## C6 — written item shapes and the reader's treatment of legacy arrays -/

lemma lrangeList_full {α : Type} (l : List α) : lrangeList l 0 (-1) = l := by
  unfold lrangeList
  dsimp only
  rcases l with _ | ⟨x, xs⟩
  · rfl
  · have hs : (max (if (0 : Int) < 0 then ((x :: xs).length : Int) + 0 else 0) 0) = 0 := by
      norm_num
    have he : (min (if (-1 : Int) < 0 then ((x :: xs).length : Int) + -1 else -1)
        (((x :: xs).length : Int) - 1)) = ((x :: xs).length : Int) - 1 := by
      norm_num
    rw [hs, he, if_pos (by rw [List.length_cons]; push_cast; omega)]
    have ht : (((x :: xs).length : Int) - 1 - 0 + 1).toNat = (x :: xs).length := by omega
    rw [ht]
    simp

lemma keptItems_append (l1 l2 : List (Option JVal)) :
    keptItems (l1 ++ l2) = keptItems l1 ++ keptItems l2 := by
  unfold keptItems
  exact List.filterMap_append _ _ _

lemma keptItems_arr_cons (xs : List JVal) (l : List (Option JVal)) :
    keptItems (some (.arr xs) :: l) = .arr xs :: keptItems l := by
  unfold keptItems
  rfl

/-- **C6 (amended).**  The write half of the claim holds: `appendList`
writes one JSON document per entry, and the encoding of a conversation
entry is a single object, never an array.  The read half does not:
`lrangeJSON` does not flatten a legacy array-shaped item — a stored JSON
array survives parsing and `filter(Boolean)` as one (mis-shaped) element
of the result, wherever it sits in the list. -/
theorem C6_writes_single_entries_reader_keeps_arrays (st : Store) (k : String)
    (es : List ConversationEntry) (e : ConversationEntry) (hne : es ≠ []) :
    itemsOf (appendListSt st k (es.map encodeEntry)) k
      = itemsOf (ensureListKey st k) k ++ es.map (fun x => some (encodeEntry x)) ∧
    jsIsObj (encodeEntry e) = true ∧
    (∀ l1 l2 xs, st k = .list (l1 ++ some (.arr xs) :: l2) →
      (lrangeJSONSt st k 0 (-1)).2 = keptItems l1 ++ .arr xs :: keptItems l2) := by
  refine ⟨?_, rfl, ?_⟩
  · rcases es with _ | ⟨x, xs⟩
    · exact absurd rfl hne
    · rw [List.map_cons, itemsOf_append_cons, itemsOf_ensure, ← List.map_cons]
      rw [List.map_map]
      rfl
  · intro l1 l2 xs hlist
    show keptItems (lrangeList (itemsOf (ensureListKey st k) k) 0 (-1)) = _
    rw [itemsOf_ensure, lrangeList_full]
    unfold itemsOf
    rw [hlist, keptItems_append, keptItems_arr_cons]

/-- **C6 witness.**  The amended statement instantiated at the store
holding one legacy array-shaped LTM item. -/
theorem C6_writes_single_entries_witness :
    ([⟨"user", "q", 9, "uk"⟩] : List ConversationEntry) ≠ [] ∧
    itemsOf (appendListSt legacyArrayStore (keyLTM "core" "sess")
        (([⟨"user", "q", 9, "uk"⟩] : List ConversationEntry).map encodeEntry))
        (keyLTM "core" "sess")
      = itemsOf (ensureListKey legacyArrayStore (keyLTM "core" "sess")) (keyLTM "core" "sess")
          ++ ([⟨"user", "q", 9, "uk"⟩] : List ConversationEntry).map
              (fun x => some (encodeEntry x)) ∧
    jsIsObj (encodeEntry ⟨"user", "q", 9, "uk"⟩) = true ∧
    (lrangeJSONSt legacyArrayStore (keyLTM "core" "sess") 0 (-1)).2
      = keptItems []
          ++ .arr [encodeEntry ⟨"user", "old question", 1, "uk"⟩,
                   encodeEntry ⟨"assistant", "old answer", 2, "uk"⟩] :: keptItems [] := by
  have h := C6_writes_single_entries_reader_keeps_arrays legacyArrayStore
    (keyLTM "core" "sess") [⟨"user", "q", 9, "uk"⟩] ⟨"user", "q", 9, "uk"⟩ (by decide)
  exact ⟨by decide, h.1, h.2.1, h.2.2 [] []
    [encodeEntry ⟨"user", "old question", 1, "uk"⟩,
     encodeEntry ⟨"assistant", "old answer", 2, "uk"⟩] rfl⟩

/-- **C6 counterexample.**  The claim that readers flatten legacy
array-shaped items is false: on a store whose LTM list holds one item
that is a JSON array of two entries, `lrangeJSON` returns a single
element — the array itself — not the two flattened entries. -/
theorem C6_reader_does_not_flatten_counterexample :
    (lrangeJSONSt legacyArrayStore (keyLTM "core" "sess") 0 (-1)).2
      = [.arr [encodeEntry ⟨"user", "old question", 1, "uk"⟩,
               encodeEntry ⟨"assistant", "old answer", 2, "uk"⟩]] ∧
    (lrangeJSONSt legacyArrayStore (keyLTM "core" "sess") 0 (-1)).2.length ≠ 2 := by
  exact ⟨rfl, by decide⟩

/-! ## C9 — embedding failures never fail the request -/

lemma jsSpread_obj (v : JVal) (hv : jsIsObj v = true) : jsSpread v = v := by
  rcases v with _ | b | q | s | xs | fields <;> simp [jsIsObj] at hv ⊢
  rfl

lemma enrichOne_error (numToStr : ℚ → String) (hasKey : Bool) (v : JVal)
    (hv : jsIsObj v = true) :
    enrichOne numToStr hasKey (fun _ => .error ()) v = v := by
  unfold enrichOne
  rcases hasKey with _ | _ <;> simp [jsSpread_obj v hv]

lemma scoreOf_none (kw : String → String → ℚ) (cos : List ℚ → List ℚ → ℚ)
    (userMsg : String) (e : RecEntry) :
    scoreOf kw cos none userMsg e = kw userMsg e.content := by
  unfold scoreOf
  rcases e.emb with _ | v <;> rfl

/-- **C9.**  Embedding-provider failures never fail the request.  During
rollover a thrown embedding call is swallowed per entry: with a throwing
provider every overflow entry is archived into LTM exactly as it was
read — no vector attached, content unchanged.  During recall a thrown
query-embedding call is caught and leaves the query embedding `null`,
and with a `null` query embedding the result is computed by keyword
scoring alone: it does not depend on the cosine-similarity function at
all. -/
theorem C9_embedding_failures_degrade_gracefully (numToStr : ℚ → String)
    (m : Nat) (hasKey : Bool) (c s : String) (st : Store)
    (kw : String → String → ℚ) (cos cos' : List ℚ → List ℚ → ℚ)
    (topK : Nat) (userMsg : String) (all : List RecEntry)
    (hlen : ¬ llenSt (ensureListKey st (keySTB c s)) (keySTB c s) ≤ m)
    (hobj : ∀ v ∈ (lrangeJSONSt (ensureListKey st (keySTB c s)) (keySTB c s) 0
        ((llenSt (ensureListKey st (keySTB c s)) (keySTB c s) - m : Nat) - 1)).2,
        jsIsObj v = true) :
    itemsOf (rolloverSt numToStr m hasKey (fun _ => .error ()) c s st) (keyLTM c s)
      = itemsOf st (keyLTM c s)
        ++ ((lrangeJSONSt (ensureListKey st (keySTB c s)) (keySTB c s) 0
            ((llenSt (ensureListKey st (keySTB c s)) (keySTB c s) - m : Nat) - 1)).2).map
            some ∧
    recallQEmb true (fun _ => .error ()) userMsg = none ∧
    recallCore kw cos topK none userMsg all = recallCore kw cos' topK none userMsg all := by
  refine ⟨?_, rfl, ?_⟩
  · unfold rolloverSt
    dsimp only
    rw [if_neg hlen]
    have hTM : ((lrangeJSONSt (ensureListKey st (keySTB c s)) (keySTB c s) 0
        ((llenSt (ensureListKey st (keySTB c s)) (keySTB c s) - m : Nat) - 1)).2).map
        (enrichOne numToStr hasKey (fun _ => .error ()))
        = (lrangeJSONSt (ensureListKey st (keySTB c s)) (keySTB c s) 0
          ((llenSt (ensureListKey st (keySTB c s)) (keySTB c s) - m : Nat) - 1)).2 := by
      rw [List.map_congr_left (fun a ha => enrichOne_error numToStr hasKey a (hobj a ha))]
      exact List.map_id _
    rw [hTM]
    have hfr : itemsOf (ltrimKeepLastSt
        (lrangeJSONSt (ensureListKey st (keySTB c s)) (keySTB c s) 0
          ((llenSt (ensureListKey st (keySTB c s)) (keySTB c s) - m : Nat) - 1)).1
        (keySTB c s) m) (keyLTM c s) = itemsOf st (keyLTM c s) := by
      apply itemsOf_congr
      rw [ltrim_other _ _ _ _ (Ne.symm (keySTB_ne_keyLTM c s))]
      show ensureListKey (ensureListKey st (keySTB c s)) (keySTB c s) (keyLTM c s) = _
      rw [ensureListKey_other _ _ _ (Ne.symm (keySTB_ne_keyLTM c s)),
        ensureListKey_other _ _ _ (Ne.symm (keySTB_ne_keyLTM c s))]
    rcases hTM2 : (lrangeJSONSt (ensureListKey st (keySTB c s)) (keySTB c s) 0
        ((llenSt (ensureListKey st (keySTB c s)) (keySTB c s) - m : Nat) - 1)).2
        with _ | ⟨x, xs⟩
    · rw [List.map_nil, List.append_nil]
      exact hfr
    · rw [itemsOf_append_cons, hfr]
  · unfold recallCore
    rcases all with _ | ⟨x, xs⟩
    · rfl
    · have hmap : ∀ (c2 : List ℚ → List ℚ → ℚ),
          (x :: xs).map (fun e => (scoreOf kw c2 none userMsg e, e))
            = (x :: xs).map (fun e => (kw userMsg e.content, e)) := by
        intro c2
        exact List.map_congr_left (fun a _ => by rw [scoreOf_none])
      rw [hmap cos, hmap cos']

/-- **C9 witness.**  The graceful degradation instantiated: a throwing
embedding provider, an STB of three entries over a capacity of two, and
a one-candidate recall. -/
theorem C9_embedding_failures_witness :
    (¬ llenSt (ensureListKey rolloverDemoStore (keySTB "core" "sess"))
        (keySTB "core" "sess") ≤ 2) ∧
    (∀ v ∈ (lrangeJSONSt (ensureListKey rolloverDemoStore (keySTB "core" "sess"))
        (keySTB "core" "sess") 0
        ((llenSt (ensureListKey rolloverDemoStore (keySTB "core" "sess"))
            (keySTB "core" "sess") - 2 : Nat) - 1)).2, jsIsObj v = true) ∧
    (itemsOf (rolloverSt (fun _ => "") 2 true (fun _ => .error ()) "core" "sess"
        rolloverDemoStore) (keyLTM "core" "sess")
      = itemsOf rolloverDemoStore (keyLTM "core" "sess")
        ++ ((lrangeJSONSt (ensureListKey rolloverDemoStore (keySTB "core" "sess"))
            (keySTB "core" "sess") 0
            ((llenSt (ensureListKey rolloverDemoStore (keySTB "core" "sess"))
                (keySTB "core" "sess") - 2 : Nat) - 1)).2).map some ∧
      recallQEmb true (fun _ => .error ()) "q" = none ∧
      recallCore (fun _ _ => (0 : ℚ)) (fun _ _ => (0 : ℚ)) 6 none "q"
          [⟨"user", "c1", none⟩]
        = recallCore (fun _ _ => (0 : ℚ)) (fun _ _ => (1 : ℚ)) 6 none "q"
          [⟨"user", "c1", none⟩]) := by
  refine ⟨by decide, by decide, ?_⟩
  exact C9_embedding_failures_degrade_gracefully (fun _ => "") 2 true "core" "sess"
    rolloverDemoStore (fun _ _ => (0 : ℚ)) (fun _ _ => (0 : ℚ)) (fun _ _ => (1 : ℚ))
    6 "q" [⟨"user", "c1", none⟩] (by decide) (by decide)

/-! ## C3 — recall: top-K, sorted, deduplicated -/

lemma dedupAux_sublist : ∀ (seen : List String) (l : List RecEntry),
    List.Sublist (dedupAux seen l) l := by
  intro seen l
  induction l generalizing seen with
  | nil => exact List.Sublist.refl []
  | cons e rest ih =>
      unfold dedupAux
      split
      · exact (ih seen).cons e
      · exact (ih (dedupKey e :: seen)).cons₂ e

lemma dedupAux_not_seen : ∀ (seen : List String) (l : List RecEntry)
    (e : RecEntry), e ∈ dedupAux seen l → dedupKey e ∉ seen := by
  intro seen l
  induction l generalizing seen with
  | nil => intro e he; simp [dedupAux] at he
  | cons x rest ih =>
      intro e he
      unfold dedupAux at he
      split at he
      · exact ih seen e he
      · rcases List.mem_cons.mp he with h1 | h1
        · subst h1; assumption
        · intro hc
          exact ih (dedupKey x :: seen) e h1 (List.mem_cons_of_mem _ hc)

lemma dedupAux_pairwise_keys : ∀ (seen : List String) (l : List RecEntry),
    (dedupAux seen l).Pairwise (fun a b => dedupKey a ≠ dedupKey b) := by
  intro seen l
  induction l generalizing seen with
  | nil => exact List.Pairwise.nil
  | cons x rest ih =>
      unfold dedupAux
      split
      · exact ih seen
      · refine List.Pairwise.cons ?_ (ih (dedupKey x :: seen))
        intro b hb hc
        exact dedupAux_not_seen _ _ _ hb (by rw [hc]; exact List.mem_cons_self _ _)

/-- **C3.**  For every scoring configuration, query and candidate list,
recall returns at most `RECALL_TOP_K` entries, in non-increasing score
order, with no two returned entries sharing the dedup key
`role + ':' + content.slice(0,120)`; and in the concrete two-candidate
scenario with identical content but different roles, both entries are
retained (the dedup key includes the role). -/
theorem C3_recall_topk_sorted_dedup :
    (∀ (kw : String → String → ℚ) (cos : List ℚ → List ℚ → ℚ) (topK : Nat)
        (qEmb : Option (List ℚ)) (userMsg : String) (all : List RecEntry),
      (recallCore kw cos topK qEmb userMsg all).length ≤ topK ∧
      (recallCore kw cos topK qEmb userMsg all).Pairwise
        (fun e1 e2 => scoreOf kw cos qEmb userMsg e2 ≤ scoreOf kw cos qEmb userMsg e1) ∧
      (recallCore kw cos topK qEmb userMsg all).Pairwise
        (fun e1 e2 => dedupKey e1 ≠ dedupKey e2)) ∧
    recallCore (fun _ _ => (0 : ℚ)) (fun _ _ => (0 : ℚ)) 6 none "q"
        [⟨"user", "same answer", none⟩, ⟨"assistant", "same answer", none⟩]
      = [⟨"user", "same answer", none⟩, ⟨"assistant", "same answer", none⟩] := by
  constructor
  · intro kw cos topK qEmb userMsg all
    rcases all with _ | ⟨x, xs⟩
    · refine ⟨by simp [recallCore], ?_, ?_⟩ <;> simp [recallCore]
    · have hsub : List.Sublist (dedupAux []
          (((List.insertionSort scoreGE
              ((x :: xs).map (fun e => (scoreOf kw cos qEmb userMsg e, e)))).take topK).map
            Prod.snd))
          ((((List.insertionSort scoreGE
              ((x :: xs).map (fun e => (scoreOf kw cos qEmb userMsg e, e)))).take topK).map
            Prod.snd)) := dedupAux_sublist _ _
      have hscore : ∀ p ∈ (List.insertionSort scoreGE
          ((x :: xs).map (fun e => (scoreOf kw cos qEmb userMsg e, e)))).take topK,
          p.1 = scoreOf kw cos qEmb userMsg p.2 := by
        intro p hp
        have hp2 : p ∈ List.insertionSort scoreGE
            ((x :: xs).map (fun e => (scoreOf kw cos qEmb userMsg e, e))) :=
          List.mem_of_mem_take hp
        have hp3 : p ∈ (x :: xs).map (fun e => (scoreOf kw cos qEmb userMsg e, e)) :=
          (List.perm_insertionSort scoreGE _).subset hp2
        rcases List.mem_map.mp hp3 with ⟨e, _, he⟩
        rw [← he]
      refine ⟨?_, ?_, ?_⟩
      · calc (recallCore kw cos topK qEmb userMsg (x :: xs)).length
            ≤ (((List.insertionSort scoreGE
                ((x :: xs).map (fun e => (scoreOf kw cos qEmb userMsg e, e)))).take topK).map
                Prod.snd).length := hsub.length_le
          _ ≤ topK := by
              rw [List.length_map]
              exact List.length_take_le _ _
      · have hsorted : (List.insertionSort scoreGE
            ((x :: xs).map (fun e => (scoreOf kw cos qEmb userMsg e, e)))).Pairwise
            scoreGE := List.sorted_insertionSort scoreGE _
        have htake := hsorted.sublist (List.take_sublist topK _)
        have hpairsnd : (((List.insertionSort scoreGE
            ((x :: xs).map (fun e => (scoreOf kw cos qEmb userMsg e, e)))).take topK).map
            Prod.snd).Pairwise
            (fun e1 e2 => scoreOf kw cos qEmb userMsg e2 ≤ scoreOf kw cos qEmb userMsg e1) := by
          rw [List.pairwise_map]
          refine htake.imp_of_mem ?_
          intro a b ha hb hr
          rw [← hscore a ha, ← hscore b hb]
          exact hr
        exact hpairsnd.sublist hsub
      · exact dedupAux_pairwise_keys _ _
  · decide

/-! ## C4 — the degradation ladder of the context assembler -/

lemma trimLoop_eq (numToStr : ℚ → String) (count : String → List AMsg → Nat)
    (maxOut budget : Nat) (system : String) (u : AMsg) :
    ∀ (work : List JVal),
    trimLoop numToStr count maxOut budget system u work
        (work.map (toAnthropicMessageJ numToStr) ++ [u])
        (count system (work.map (toAnthropicMessageJ numToStr) ++ [u]))
      = match (shiftChain work).find?
            (fun w => decide (count system (w.map (toAnthropicMessageJ numToStr) ++ [u])
              + maxOut ≤ budget)) with
        | some w => (w.map (toAnthropicMessageJ numToStr) ++ [u],
            count system (w.map (toAnthropicMessageJ numToStr) ++ [u]))
        | none => ([u], count system [u])
  | [] => by
      simp [trimLoop, shiftChain]
  | h :: rest => by
      rw [trimLoop]
      split_ifs with hfit
      · have hp : (fun w => decide (count system
            ((w.map (toAnthropicMessageJ numToStr)) ++ [u]) + maxOut ≤ budget)) rest
            = true := decide_eq_true hfit
        have hfind : List.find?
            (fun w => decide (count system
              ((w.map (toAnthropicMessageJ numToStr)) ++ [u]) + maxOut ≤ budget))
            (rest :: shiftChain rest) = some rest := List.find?_cons_of_pos _ hp
        rw [shiftChain, hfind]
      · have hp : ¬ (fun w => decide (count system
            ((w.map (toAnthropicMessageJ numToStr)) ++ [u]) + maxOut ≤ budget)) rest
            = true := by simpa using hfit
        have hfind : List.find?
            (fun w => decide (count system
              ((w.map (toAnthropicMessageJ numToStr)) ++ [u]) + maxOut ≤ budget))
            (rest :: shiftChain rest)
            = List.find?
            (fun w => decide (count system
              ((w.map (toAnthropicMessageJ numToStr)) ++ [u]) + maxOut ≤ budget))
            (shiftChain rest) := List.find?_cons_of_neg _ hp
        rw [shiftChain, hfind]
        exact trimLoop_eq numToStr count maxOut budget system u rest

lemma nil_mem_shiftChain {α : Type} : ∀ (l : List α), l ≠ [] → [] ∈ shiftChain l
  | [], h => absurd rfl h
  | [x], _ => by simp [shiftChain]
  | x :: y :: rest, _ => by
      rw [shiftChain]
      exact List.mem_cons_of_mem _ (nil_mem_shiftChain (y :: rest) (by simp))

lemma shiftChain_ne_nil_cons {α : Type} (l : List α) : l :: shiftChain l ≠ [] := by
  simp

lemma shiftChain_getLast {α : Type} :
    ∀ (l : List α), (l :: shiftChain l).getLast (by simp) = []
  | [] => rfl
  | x :: rest => by
      rw [shiftChain, List.getLast_cons (by simp)]
      exact shiftChain_getLast rest


lemma trimLoop_eq_some (numToStr : ℚ → String) (count : String → List AMsg → Nat)
    (maxOut budget : Nat) (system : String) (u : AMsg) (work w : List JVal)
    (hfind : (shiftChain work).find?
        (fun w => decide (count system (w.map (toAnthropicMessageJ numToStr) ++ [u])
          + maxOut ≤ budget)) = some w) :
    trimLoop numToStr count maxOut budget system u work
        (work.map (toAnthropicMessageJ numToStr) ++ [u])
        (count system (work.map (toAnthropicMessageJ numToStr) ++ [u]))
      = (w.map (toAnthropicMessageJ numToStr) ++ [u],
          count system (w.map (toAnthropicMessageJ numToStr) ++ [u])) := by
  rw [trimLoop_eq, hfind]

lemma trimLoop_eq_none (numToStr : ℚ → String) (count : String → List AMsg → Nat)
    (maxOut budget : Nat) (system : String) (u : AMsg) (work : List JVal)
    (hfind : (shiftChain work).find?
        (fun w => decide (count system (w.map (toAnthropicMessageJ numToStr) ++ [u])
          + maxOut ≤ budget)) = none) :
    trimLoop numToStr count maxOut budget system u work
        (work.map (toAnthropicMessageJ numToStr) ++ [u])
        (count system (work.map (toAnthropicMessageJ numToStr) ++ [u]))
      = ([u], count system [u]) := by
  rw [trimLoop_eq, hfind]

set_option maxHeartbeats 1000000 in
lemma buildPrompt_eq_firstFit (numToStr : ℚ → String)
    (count : String → List AMsg → Nat) (maxOut budget : Nat)
    (base locale summary : String) (recalled : List RecEntry)
    (stb : List JVal) (userE : ConversationEntry) :
    buildPromptCore numToStr count maxOut budget base locale summary recalled stb userE
      = firstFitOrLast count maxOut budget
          (ladderCandidates numToStr base locale summary recalled stb userE) := by
  unfold buildPromptCore ladderCandidates firstFitOrLast
  dsimp only
  set u := toAnthropicMessageEntry userE with hu
  set sB := summaryBlockOf summary with hsB
  set rB := recalledBlockOf recalled with hrB
  set sys0 := base ++ "\nLocale: " ++ locale ++ sB ++ rB with hsys0
  set sysN := base ++ "\nLocale: " ++ locale ++ sB with hsysN
  set sysB := base ++ "\nLocale: " ++ locale with hsysB
  by_cases h0 : count sys0 (stb.map (toAnthropicMessageJ numToStr) ++ [u]) + maxOut ≤ budget
  · rw [if_pos h0]
    have hcands : ((stb :: shiftChain stb).map
          (fun w => (⟨sys0, w.map (toAnthropicMessageJ numToStr) ++ [u]⟩ : Payload)))
          ++ (if rB ≠ "" then [(⟨sysN, [u]⟩ : Payload)] else [])
          ++ (if sB ≠ "" then [(⟨sysB, [u]⟩ : Payload)] else [])
        = (⟨sys0, stb.map (toAnthropicMessageJ numToStr) ++ [u]⟩ : Payload)
          :: (((shiftChain stb).map
              (fun w => (⟨sys0, w.map (toAnthropicMessageJ numToStr) ++ [u]⟩ : Payload)))
            ++ (if rB ≠ "" then [(⟨sysN, [u]⟩ : Payload)] else [])
            ++ (if sB ≠ "" then [(⟨sysB, [u]⟩ : Payload)] else [])) := by
      rw [List.map_cons, List.cons_append, List.cons_append]
    rw [hcands]
    have hfind : List.find? (fitsCand count maxOut budget)
        ((⟨sys0, stb.map (toAnthropicMessageJ numToStr) ++ [u]⟩ : Payload)
          :: (((shiftChain stb).map
              (fun w => (⟨sys0, w.map (toAnthropicMessageJ numToStr) ++ [u]⟩ : Payload)))
            ++ (if rB ≠ "" then [(⟨sysN, [u]⟩ : Payload)] else [])
            ++ (if sB ≠ "" then [(⟨sysB, [u]⟩ : Payload)] else [])))
        = some ⟨sys0, stb.map (toAnthropicMessageJ numToStr) ++ [u]⟩ :=
      List.find?_cons_of_pos _ (by simp [fitsCand, h0])
    rw [hfind]
  · rw [if_neg h0]
    have hheadneg : ¬ (fitsCand count maxOut budget
        (⟨sys0, stb.map (toAnthropicMessageJ numToStr) ++ [u]⟩ : Payload)) = true := by
      simp [fitsCand, h0]
    have hcomp : ((fitsCand count maxOut budget) ∘
          (fun w => (⟨sys0, w.map (toAnthropicMessageJ numToStr) ++ [u]⟩ : Payload)))
        = (fun w : List JVal => decide (count sys0
            (w.map (toAnthropicMessageJ numToStr) ++ [u]) + maxOut ≤ budget)) := rfl
    cases hfind : (shiftChain stb).find?
        (fun w : List JVal => decide (count sys0
          (w.map (toAnthropicMessageJ numToStr) ++ [u]) + maxOut ≤ budget)) with
    | some w =>
        rw [trimLoop_eq_some numToStr count maxOut budget sys0 u stb w hfind]
        have hfit_w : count sys0 (w.map (toAnthropicMessageJ numToStr) ++ [u])
            + maxOut ≤ budget := by
          have h := List.find?_some hfind
          exact of_decide_eq_true h
        dsimp only
        rw [if_neg (show ¬ (budget < count sys0 (w.map (toAnthropicMessageJ numToStr) ++ [u])
            + maxOut ∧ rB ≠ "") from fun hc => absurd hc.1 (by omega))]
        dsimp only
        rw [if_neg (show ¬ (budget < count sys0 (w.map (toAnthropicMessageJ numToStr) ++ [u])
            + maxOut ∧ sB ≠ "") from fun hc => absurd hc.1 (by omega))]
        rw [List.map_cons, List.cons_append, List.cons_append,
          List.find?_cons_of_neg _ hheadneg, List.find?_append, List.find?_append,
          List.find?_map, hcomp, hfind]
        rfl
    | none =>
        rw [trimLoop_eq_none numToStr count maxOut budget sys0 u stb hfind]
        have hall : ∀ w ∈ shiftChain stb,
            ¬ (count sys0 (w.map (toAnthropicMessageJ numToStr) ++ [u])
              + maxOut ≤ budget) := by
          intro w hw
          have h := List.find?_eq_none.mp hfind w hw
          simpa using h
        have hfit_u : ¬ (count sys0 [u] + maxOut ≤ budget) := by
          by_cases hstb : stb = []
          · subst hstb
            simpa using h0
          · simpa using hall [] (nil_mem_shiftChain stb hstb)
        have hchainnone : ((shiftChain stb).map
            (fun w => (⟨sys0, w.map (toAnthropicMessageJ numToStr) ++ [u]⟩ : Payload))).find?
            (fitsCand count maxOut budget) = none := by
          rw [List.find?_map, hcomp, hfind]
          rfl
        dsimp only
        by_cases hrne : rB = ""
        · rw [if_neg (show ¬ (budget < count sys0 [u] + maxOut ∧ rB ≠ "") from
            fun hc => absurd hrne hc.2)]
          dsimp only
          by_cases hsne : sB = ""
          · rw [if_neg (show ¬ (budget < count sys0 [u] + maxOut ∧ sB ≠ "") from
              fun hc => absurd hsne hc.2)]
            rw [if_neg (show ¬ (rB ≠ "") from not_not_intro hrne),
              if_neg (show ¬ (sB ≠ "") from not_not_intro hsne),
              List.append_nil, List.append_nil, List.map_cons,
              List.find?_cons_of_neg _ hheadneg, hchainnone]
            show _ = ((⟨sys0, stb.map (toAnthropicMessageJ numToStr) ++ [u]⟩ : Payload)
              :: ((shiftChain stb).map
                (fun w => (⟨sys0, w.map (toAnthropicMessageJ numToStr) ++ [u]⟩ : Payload)))).getLastD
              ⟨"", []⟩
            rw [← List.map_cons
              (fun w => (⟨sys0, w.map (toAnthropicMessageJ numToStr) ++ [u]⟩ : Payload)) stb,
              List.getLastD_eq_getLast?, List.getLast?_eq_getLast _ (by simp),
              List.getLast_map _ _ (by simp), shiftChain_getLast]
            rfl
          · rw [if_pos (show budget < count sys0 [u] + maxOut ∧ sB ≠ "" from
              ⟨by omega, hsne⟩)]
            rw [if_neg (show ¬ (rB ≠ "") from not_not_intro hrne),
              if_pos (show sB ≠ "" from hsne),
              List.append_nil, List.map_cons, List.cons_append,
              List.find?_cons_of_neg _ hheadneg, List.find?_append, hchainnone,
              Option.none_or]
            by_cases h3 : count sysB [u] + maxOut ≤ budget
            · rw [List.find?_cons_of_pos _ (by simp [fitsCand, h3])]
            · rw [List.find?_cons_of_neg _ (by simp [fitsCand, h3])]
              show _ = ((⟨sys0, stb.map (toAnthropicMessageJ numToStr) ++ [u]⟩ : Payload)
                :: (((shiftChain stb).map
                  (fun w => (⟨sys0, w.map (toAnthropicMessageJ numToStr) ++ [u]⟩ : Payload)))
                  ++ [(⟨sysB, [u]⟩ : Payload)])).getLastD ⟨"", []⟩
              rw [← List.cons_append, List.getLastD_concat]
        · rw [if_pos (show budget < count sys0 [u] + maxOut ∧ rB ≠ "" from
            ⟨by omega, hrne⟩)]
          dsimp only
          by_cases h2 : count sysN [u] + maxOut ≤ budget
          · rw [if_neg (show ¬ (budget < count sysN [u] + maxOut ∧ sB ≠ "") from
              fun hc => absurd h2 (by omega))]
            rw [if_pos (show rB ≠ "" from hrne),
              List.map_cons, List.cons_append, List.cons_append,
              List.find?_cons_of_neg _ hheadneg, List.find?_append, List.find?_append,
              hchainnone, Option.none_or,
              List.find?_cons_of_pos _ (by simp [fitsCand, h2])]
            rfl
          · by_cases hsne : sB = ""
            · rw [if_neg (show ¬ (budget < count sysN [u] + maxOut ∧ sB ≠ "") from
                fun hc => absurd hsne hc.2)]
              rw [if_pos (show rB ≠ "" from hrne),
                if_neg (show ¬ (sB ≠ "") from not_not_intro hsne),
                List.append_nil, List.map_cons, List.cons_append,
                List.find?_cons_of_neg _ hheadneg, List.find?_append, hchainnone,
                Option.none_or, List.find?_cons_of_neg _ (by simp [fitsCand, h2])]
              show _ = ((⟨sys0, stb.map (toAnthropicMessageJ numToStr) ++ [u]⟩ : Payload)
                :: (((shiftChain stb).map
                  (fun w => (⟨sys0, w.map (toAnthropicMessageJ numToStr) ++ [u]⟩ : Payload)))
                  ++ [(⟨sysN, [u]⟩ : Payload)])).getLastD ⟨"", []⟩
              rw [← List.cons_append, List.getLastD_concat]
            · rw [if_pos (show budget < count sysN [u] + maxOut ∧ sB ≠ "" from
                ⟨by omega, hsne⟩)]
              rw [if_pos (show rB ≠ "" from hrne), if_pos (show sB ≠ "" from hsne),
                List.map_cons, List.cons_append, List.cons_append,
                List.find?_cons_of_neg _ hheadneg, List.find?_append, List.find?_append,
                hchainnone, Option.none_or,
                List.find?_cons_of_neg _ (by simp [fitsCand, h2])]
              by_cases h3 : count sysB [u] + maxOut ≤ budget
              · rw [List.find?_cons_of_pos _ (by simp [fitsCand, h3])]
                rfl
              · rw [List.find?_cons_of_neg _ (by simp [fitsCand, h3])]
                show _ = ((⟨sys0, stb.map (toAnthropicMessageJ numToStr) ++ [u]⟩ : Payload)
                  :: ((((shiftChain stb).map
                    (fun w => (⟨sys0, w.map (toAnthropicMessageJ numToStr) ++ [u]⟩ : Payload)))
                    ++ [(⟨sysN, [u]⟩ : Payload)]) ++ [(⟨sysB, [u]⟩ : Payload)])).getLastD ⟨"", []⟩
                rw [← List.cons_append, List.getLastD_concat]

lemma firstFitOrLast_mem (count : String → List AMsg → Nat) (maxOut budget : Nat)
    (cands : List Payload) (h : cands ≠ []) :
    firstFitOrLast count maxOut budget cands ∈ cands := by
  unfold firstFitOrLast
  cases hf : cands.find? (fitsCand count maxOut budget) with
  | some p => exact List.mem_of_find?_eq_some hf
  | none =>
      rw [List.getLastD_eq_getLast?, List.getLast?_eq_getLast _ h]
      exact List.getLast_mem h

lemma ladderCandidates_ne_nil (numToStr : ℚ → String) (base locale summary : String)
    (recalled : List RecEntry) (stb : List JVal) (userE : ConversationEntry) :
    ladderCandidates numToStr base locale summary recalled stb userE ≠ [] := by
  unfold ladderCandidates
  simp

lemma ladder_elem_props (numToStr : ℚ → String) (base locale summary : String)
    (recalled : List RecEntry) (stb : List JVal) (userE : ConversationEntry) :
    ∀ p ∈ ladderCandidates numToStr base locale summary recalled stb userE,
      p.messages.getLast? = some (toAnthropicMessageEntry userE) ∧
      ∃ suffix, p.system = (base ++ "\nLocale: " ++ locale) ++ suffix := by
  intro p hp
  unfold ladderCandidates at hp
  dsimp only at hp
  rcases List.mem_append.mp hp with h1 | h1
  · rcases List.mem_append.mp h1 with h2 | h2
    · rcases List.mem_map.mp h2 with ⟨w, _, hw⟩
      rw [← hw]
      refine ⟨List.getLast?_concat _, summaryBlockOf summary ++ recalledBlockOf recalled, ?_⟩
      show base ++ "\nLocale: " ++ locale ++ summaryBlockOf summary ++ recalledBlockOf recalled
        = base ++ "\nLocale: " ++ locale ++ (summaryBlockOf summary ++ recalledBlockOf recalled)
      rw [String.append_assoc]
    · by_cases hr : recalledBlockOf recalled ≠ ""
      · rw [if_pos hr] at h2
        rcases List.mem_singleton.mp h2 with rfl
        exact ⟨rfl, summaryBlockOf summary, rfl⟩
      · rw [if_neg hr] at h2
        exact absurd h2 (List.not_mem_nil p)
  · by_cases hs : summaryBlockOf summary ≠ ""
    · rw [if_pos hs] at h1
      rcases List.mem_singleton.mp h1 with rfl
      refine ⟨rfl, "", ?_⟩
      rw [String.append_empty]
    · rw [if_neg hs] at h1
      exact absurd h1 (List.not_mem_nil p)

/-- **C4.**  The context assembler's degradation ladder: for every
token-counting oracle and every input, `buildPrompt` returns exactly the
first candidate of the fixed ordered ladder — full payload, then STB
suffixes trimmed one entry at a time from the oldest end, then the
payload without the recall block, then without the summary block — that
fits the budget, or the final (minimal) candidate when none fits, so it
never errors; and the result always retains the new user entry as the
last message and always begins its system text with the base prompt and
locale line. -/
theorem C4_degradation_ladder_fixed_order (numToStr : ℚ → String) (count : String → List AMsg → Nat)
    (maxOut budget : Nat) (base locale summary : String) (recalled : List RecEntry)
    (stb : List JVal) (userE : ConversationEntry) :
    buildPromptCore numToStr count maxOut budget base locale summary recalled stb userE
      = firstFitOrLast count maxOut budget
          (ladderCandidates numToStr base locale summary recalled stb userE) ∧
    (buildPromptCore numToStr count maxOut budget base locale summary recalled
        stb userE).messages.getLast? = some (toAnthropicMessageEntry userE) ∧
    (∃ suffix, (buildPromptCore numToStr count maxOut budget base locale summary
        recalled stb userE).system = (base ++ "\nLocale: " ++ locale) ++ suffix) := by
  have h1 := buildPrompt_eq_firstFit numToStr count maxOut budget base locale summary
    recalled stb userE
  have hmem := firstFitOrLast_mem count maxOut budget _
    (ladderCandidates_ne_nil numToStr base locale summary recalled stb userE)
  have hp := ladder_elem_props numToStr base locale summary recalled stb userE _ hmem
  exact ⟨h1, by rw [h1]; exact hp.1, by rw [h1]; exact hp.2⟩
